import Mathlib

/-!
Verification development for the `face_tagger` repository
(`face_tagger/face_tagger.py`).  The Python source is shallowly embedded:
pure computations become Lean functions, the external face-encoding
library is a function parameter, the filesystem is an explicit list of
entries, and the external `exiftool` process call is modelled by the
argument list the program hands to it.
-/

/-- Fixed top-level keyword, `TOP_KEYWORD = "Personen"` in the source. -/
def TOP_KEYWORD : String := "Personen"

/-- Embeds `exiftool_write` (face_tagger.py lines 40-73).  The function's
observable behaviour is the argument vector passed to `subprocess.run`;
we return that vector.  Each `-TAG+=value` element is one external
append write. -/
def exiftool_write (file_path : String) (hierarchical_metadata : List String)
    (metadata : List String) : List String :=
  ["exiftool", "-overwrite_original", "-L", "-charset", "filename=cp1252"]
    ++ metadata.map (fun person => "-Keywords+=" ++ person)
    ++ hierarchical_metadata.map (fun person_sub => "-HierarchicalSubject+=" ++ person_sub)
    ++ metadata.map (fun person => "-Subject+=" ++ person)
    ++ [file_path]

/-- Embeds `add_metadata` (lines 255-269): builds the hierarchical list
from the recognized people, appends the top keyword to both lists and
delegates to `exiftool_write`.  Note that the source reads no existing
metadata: the emitted command depends only on `file_path` and
`recognized_people`. -/
def add_metadata (file_path : String) (recognized_people : List String) : List String :=
  let recognized_people_sub := recognized_people.map (fun person => TOP_KEYWORD ++ "|" ++ person)
  exiftool_write file_path (recognized_people_sub ++ [TOP_KEYWORD])
    (recognized_people ++ [TOP_KEYWORD])

/-- Per-face matching step of `analyze_file` (lines 167-178).  `dist` is
the external `face_recognition.face_distance` restricted to one unknown
encoding, `tol` the tolerance.  The boolean list `result` mirrors
`list(distances <= tolerance)`; the branch mirrors `if True in result`. -/
def match_face {Enc D : Type} [LinearOrder D] (dist : Enc → Enc → D) (tol : D)
    (known_names : List String) (known_face_encodings : List Enc) (u : Enc) : List String :=
  let result := known_face_encodings.map (fun e => decide (dist e u ≤ tol))
  if result.any (fun b => b) then
    ((result.zip known_names).filter (fun p => p.1)).map (fun p => p.2)
  else
    ["unknown_person"]

/-- Spec-side description of the Matcher output (spec section 4.4):
all known names whose encoding is within tolerance of the unknown
encoding, in index order.  Used to compare against the source-derived
`match_face`. -/
def matched_names {Enc D : Type} [LinearOrder D] (dist : Enc → Enc → D) (tol : D)
    (known_names : List String) (known_face_encodings : List Enc) (u : Enc) : List String :=
  ((known_names.zip known_face_encodings).filter (fun p => decide (dist p.2 u ≤ tol))).map
    (fun p => p.1)

/-- Encoding-level part of `analyze_file` (lines 163-184): fold over the
unknown encodings extending the recognized list per face, then append
the `no_people_found` sentinel when no face was detected. -/
def analyze_encodings {Enc D : Type} [LinearOrder D] (dist : Enc → Enc → D) (tol : D)
    (known_names : List String) (known_face_encodings : List Enc)
    (unknown_encodings : List Enc) : List String :=
  let recognized_people := unknown_encodings.foldl
    (fun acc u => acc ++ match_face dist tol known_names known_face_encodings u) []
  if unknown_encodings.isEmpty then recognized_people ++ ["no_people_found"]
  else recognized_people

/-- Discrete test distance used in concrete instances: distance 0 between
equal naturals, 10 otherwise. -/
def dNat (a b : Nat) : Nat := if a = b then 0 else 10

/-- Supported extensions, `ALLOWED_EXTENSIONS` (lines 27-29):
images then videos, in source order. -/
def ALLOWED_EXTENSIONS : List String := ["jpeg", "jpg", "png", "mp4", "avi", "mkv", "mov"]

/-- One filesystem entry: a path (as components) and whether it is a
directory.  The filesystem seen by `scan_files` is a finite list of such
entries, in the order the operating system enumerates them. -/
structure FSEntry where
  path : List String
  isDir : Bool
deriving DecidableEq

/-- Mirrors `os.path.isdir`. -/
def fs_is_dir (fs : List FSEntry) (p : List String) : Bool :=
  fs.any (fun e => e.isDir && e.path == p)

/-- Mirrors `os.path.isfile`. -/
def fs_is_file (fs : List FSEntry) (p : List String) : Bool :=
  fs.any (fun e => !e.isDir && e.path == p)

/-- Name ends in a dot followed by the given extension, the way the
shell pattern `*.ext` constrains the final component (case-sensitive,
as `glob`/`fnmatch` are on a POSIX filesystem). -/
def ends_with_ext (n : String) (ext : String) : Bool :=
  let nd := n.data
  let ed := '.' :: ext.data
  decide (ed.length ≤ nd.length) && nd.drop (nd.length - ed.length) == ed

/-- A name starting with a dot is hidden; `glob` never matches it with
a `*` pattern. -/
def hidden_name (n : String) : Bool :=
  match n.data with
  | [] => false
  | c :: _ => c == '.'

/-- Entry `p` is matched by the pattern `d/*.ext`: one non-hidden
component below `d`, ending in `.ext`.  `glob` matches directories as
well as plain files, so no file/directory distinction here. -/
def child_with_ext (d p : List String) (ext : String) : Bool :=
  p.take d.length == d &&
    match p.drop d.length with
    | [n] => ends_with_ext n ext && !hidden_name n
    | _ => false

/-- Entry `p` is matched by the pattern `d/**/*.ext` as `glob.glob`
evaluates it **without** `recursive=True`: the `**` behaves like a
single `*`, so exactly one intermediate component. -/
def sub_with_ext (d p : List String) (ext : String) : Bool :=
  p.take d.length == d &&
    match p.drop d.length with
    | [a, n] => ends_with_ext n ext && !hidden_name n && !hidden_name a
    | _ => false

/-- Result of `glob.glob(os.path.join(d, "*.ext"))` over the modelled
filesystem, in filesystem-enumeration order. -/
def glob_child (fs : List FSEntry) (d : List String) (ext : String) : List (List String) :=
  (fs.filter (fun e => child_with_ext d e.path ext)).map (fun e => e.path)

/-- Result of `glob.glob(os.path.join(d, "**/*.ext"))` (non-recursive
`**`, one directory level). -/
def glob_sub (fs : List FSEntry) (d : List String) (ext : String) : List (List String) :=
  (fs.filter (fun e => sub_with_ext d e.path ext)).map (fun e => e.path)

/-- Paths `scan_files` extends the iterated list with when it meets the
directory `d` (lines 100-103): for each allowed extension, first the
`d/*.ext` matches, then the `d/**/*.ext` matches. -/
def scan_dir_additions (fs : List FSEntry) (d : List String) : List (List String) :=
  ALLOWED_EXTENSIONS.foldr (fun ext acc => glob_child fs d ext ++ glob_sub fs d ext ++ acc) []

/-- Worklist embedding of `scan_files` (lines 90-109).  Python iterates
over the very list it keeps extending at the back, so the processing
order equals the final content of the (mutated) argument list.  The
first component is the returned `filenames`, the second the complete
processed sequence, i.e. the content of the caller's list after the
call.  `fuel` bounds the number of processed items; every terminating
run of the Python loop is reproduced by any sufficiently large fuel. -/
def scan_files_go (fs : List FSEntry) : Nat → List (List String) → List (List String) × List (List String)
  | 0, work => ([], work)
  | Nat.succ _, [] => ([], [])
  | Nat.succ fuel, p :: rest =>
    if fs_is_dir fs p then
      let r := scan_files_go fs fuel (rest ++ scan_dir_additions fs p)
      (r.1, p :: r.2)
    else if fs_is_file fs p then
      let r := scan_files_go fs fuel rest
      (p :: r.1, p :: r.2)
    else
      let r := scan_files_go fs fuel rest
      (r.1, p :: r.2)

/-- Entry point of the `scan_files` model. -/
def scan_files (fs : List FSEntry) (fuel : Nat) (files : List (List String)) :
    List (List String) × List (List String) :=
  scan_files_go fs fuel files

/-- First index of a name in a list, mirroring
`known_names.index(basename) if basename in known_names else -1`
(line 222), with `-1` rendered as `none`. -/
def index_of_name : List String → String → Option Nat
  | [], _ => none
  | n :: rest, b => if n = b then some 0 else (index_of_name rest b).map (· + 1)

/-- In-memory state of `scan_known_people` (lines 200-252): the three
parallel lists plus the `cache_dirty` flag. -/
structure KPState (Enc : Type) where
  names : List String
  encs : List Enc
  sizes : List Nat
  dirty : Bool
deriving DecidableEq

/-- Cache-miss branch of the reference loop (lines 226-242): mark the
cache dirty, encode the file, and append the triple only when exactly
one face encoding was produced — with several encodings the code merely
logs and falls through, with zero it logs and falls through. -/
def scan_known_people_encode {Enc : Type} (encoder : String → List Enc)
    (st : KPState Enc) (f : String × Nat) : KPState Enc :=
  let encodings := encoder f.1
  if encodings.length > 1 then
    ⟨st.names, st.encs, st.sizes, true⟩
  else
    match encodings with
    | [] => ⟨st.names, st.encs, st.sizes, true⟩
    | e :: _ => ⟨st.names ++ [f.1], st.encs ++ [e], st.sizes ++ [f.2], true⟩

/-- One iteration of the reference loop (lines 218-242) on a reference
file given as (basename, byte size): cache hit (first index of the name
carries the current size) reuses the cached encoding, anything else
goes through the encode branch. -/
def scan_known_people_step {Enc : Type} (encoder : String → List Enc)
    (st : KPState Enc) (f : String × Nat) : KPState Enc :=
  match index_of_name st.names f.1 with
  | some i => if st.sizes.get? i = some f.2 then st else scan_known_people_encode encoder st f
  | none => scan_known_people_encode encoder st f

/-- The reference file `f` hits the cache of state `st`: its basename's
first index carries exactly its current byte size. -/
def cache_hit {Enc : Type} (st : KPState Enc) (f : String × Nat) : Bool :=
  match index_of_name st.names f.1 with
  | some i => st.sizes.get? i == some f.2
  | none => false

/-- Embeds `scan_known_people` (lines 187-252).  `encoder` abstracts
`face_recognition.face_encodings ∘ load_image_file` on a reference file,
`files` is the scanned reference-file list as (basename, size) pairs,
`cache` the loaded `cache.pkl` triple.  Returns the final state and
whether the cache file is (re)written, i.e.
`cache_dirty or len(known_people_files) != len(known_names)`
(line 243); when it is written, the written content is exactly the
state's three parallel lists. -/
def scan_known_people {Enc : Type} (encoder : String → List Enc)
    (files : List (String × Nat)) (cache : List String × List Enc × List Nat) :
    KPState Enc × Bool :=
  let st0 : KPState Enc := ⟨cache.1, cache.2.1, cache.2.2, false⟩
  let st := files.foldl (scan_known_people_step encoder) st0
  (st, st.dirty || files.length != st.names.length)

/-- Result collection of `main` (lines 299-300): `future.result()`
re-raises a worker's unhandled exception in the orchestrating process,
which has no surrounding try/except, so the first failed file aborts
the remaining iterations.  A worker outcome is `Except.error msg` for an
unhandled exception and `Except.ok labels` for a normal return. -/
def collect_results : List (Except String (List String)) → Except String (List (List String))
  | [] => Except.ok []
  | r :: rest =>
    match r with
    | Except.error e => Except.error e
    | Except.ok v =>
      match collect_results rest with
      | Except.error e => Except.error e
      | Except.ok vs => Except.ok (v :: vs)

/-- Concrete filesystem for the depth claim: `d/a/b/x.jpg`, a supported
image three levels below the input directory `d`. -/
def fsDeep : List FSEntry :=
  [⟨["d"], true⟩, ⟨["d", "a"], true⟩, ⟨["d", "a", "b"], true⟩,
   ⟨["d", "a", "b", "x.jpg"], false⟩]

/-- Concrete filesystem for the double-scan claim: directory `d`
containing the image `d/x.jpg`. -/
def fsSmall : List FSEntry :=
  [⟨["d"], true⟩, ⟨["d", "x.jpg"], false⟩]

theorem map_snd_filter_fst_zip (f : α → Bool) :
    ∀ (encs : List α) (names : List String), names.length = encs.length →
      (((encs.map f).zip names).filter (fun p => p.1)).map (fun p => p.2)
        = ((names.zip encs).filter (fun p => f p.2)).map (fun p => p.1)
  | [], [], _ => rfl
  | e :: encs, n :: names, h => by
    simp only [List.map_cons, List.zip_cons_cons, List.filter_cons]
    have ih := map_snd_filter_fst_zip f encs names (by simpa using h)
    by_cases hc : f e = true
    · simp [hc, ih]
    · simp [hc, ih]

theorem filter_zip_eq_nil_iff (f : α → Bool) :
    ∀ (encs : List α) (names : List String), names.length = encs.length →
      (((names.zip encs).filter (fun p => f p.2)) = [] ↔ encs.any f = false)
  | [], [], _ => by simp
  | e :: encs, n :: names, h => by
    have ih := filter_zip_eq_nil_iff f encs names (by simpa using h)
    by_cases hc : f e = true
    · simp [List.filter_cons, hc]
    · simp only [Bool.not_eq_true] at hc
      simp [List.filter_cons, hc, ih]

theorem match_face_eq {Enc D : Type} [LinearOrder D] (dist : Enc → Enc → D) (tol : D)
    (known_names : List String) (known_face_encodings : List Enc) (u : Enc)
    (hlen : known_names.length = known_face_encodings.length) :
    match_face dist tol known_names known_face_encodings u
      = if matched_names dist tol known_names known_face_encodings u = []
        then ["unknown_person"]
        else matched_names dist tol known_names known_face_encodings u := by
  unfold match_face matched_names
  have htr := map_snd_filter_fst_zip (fun e => decide (dist e u ≤ tol))
    known_face_encodings known_names hlen
  have hnil := filter_zip_eq_nil_iff (fun e => decide (dist e u ≤ tol))
    known_face_encodings known_names hlen
  by_cases hany : known_face_encodings.any (fun e => decide (dist e u ≤ tol)) = true
  · have hne : ((known_names.zip known_face_encodings).filter
        (fun p => decide (dist p.2 u ≤ tol))) ≠ [] := by
      intro hcontra
      rw [hnil.mp hcontra] at hany
      exact Bool.false_ne_true hany
    simp only [List.any_map] at *
    rw [if_pos (by simpa [Function.comp] using hany)]
    rw [if_neg (by simpa using hne)]
    simpa [Function.comp] using htr
  · have hfalse : known_face_encodings.any (fun e => decide (dist e u ≤ tol)) = false :=
      Bool.eq_false_iff.mpr hany
    have hnilp := hnil.mpr hfalse
    simp only [List.any_map] at *
    rw [if_neg (by simpa [Function.comp] using hany)]
    rw [if_pos (by simpa using hnilp)]

theorem one_le_length_match_face {Enc D : Type} [LinearOrder D] (dist : Enc → Enc → D)
    (tol : D) (known_names : List String) (known_face_encodings : List Enc) (u : Enc)
    (hlen : known_names.length = known_face_encodings.length) :
    1 ≤ (match_face dist tol known_names known_face_encodings u).length := by
  rw [match_face_eq dist tol known_names known_face_encodings u hlen]
  by_cases h : matched_names dist tol known_names known_face_encodings u = []
  · simp [h]
  · rw [if_neg h]
    exact Nat.one_le_iff_ne_zero.mpr (by simpa [List.length_eq_zero] using h)

theorem mem_match_face {Enc D : Type} [LinearOrder D] (dist : Enc → Enc → D)
    (tol : D) (known_names : List String) (known_face_encodings : List Enc) (u : Enc)
    (hlen : known_names.length = known_face_encodings.length) (l : String)
    (hl : l ∈ match_face dist tol known_names known_face_encodings u) :
    l ∈ known_names ∨ l = "unknown_person" := by
  rw [match_face_eq dist tol known_names known_face_encodings u hlen] at hl
  by_cases h : matched_names dist tol known_names known_face_encodings u = []
  · rw [if_pos h] at hl
    right
    simpa using hl
  · rw [if_neg h] at hl
    left
    unfold matched_names at hl
    obtain ⟨p, hp, hpl⟩ := List.mem_map.mp hl
    have hpz : p ∈ known_names.zip known_face_encodings := List.mem_of_mem_filter hp
    obtain ⟨a, b⟩ := p
    exact hpl ▸ (List.of_mem_zip hpz).1

theorem length_match_face_of_le_one {Enc D : Type} [LinearOrder D] (dist : Enc → Enc → D)
    (tol : D) (known_names : List String) (known_face_encodings : List Enc) (u : Enc)
    (hlen : known_names.length = known_face_encodings.length)
    (h1 : (matched_names dist tol known_names known_face_encodings u).length ≤ 1) :
    (match_face dist tol known_names known_face_encodings u).length = 1 := by
  rw [match_face_eq dist tol known_names known_face_encodings u hlen]
  by_cases h : matched_names dist tol known_names known_face_encodings u = []
  · simp [h]
  · rw [if_neg h]
    have : 1 ≤ (matched_names dist tol known_names known_face_encodings u).length :=
      Nat.one_le_iff_ne_zero.mpr (by simpa [List.length_eq_zero] using h)
    omega

theorem foldl_append_eq_flatMap (g : α → List String) :
    ∀ (l : List α) (acc : List String),
      l.foldl (fun a u => a ++ g u) acc = acc ++ l.flatMap g
  | [], acc => by simp
  | a :: l, acc => by
    rw [List.foldl_cons, foldl_append_eq_flatMap g l (acc ++ g a)]
    simp

theorem analyze_encodings_eq {Enc D : Type} [LinearOrder D] (dist : Enc → Enc → D)
    (tol : D) (known_names : List String) (known_face_encodings : List Enc)
    (unknown_encodings : List Enc) :
    analyze_encodings dist tol known_names known_face_encodings unknown_encodings
      = if unknown_encodings.isEmpty then ["no_people_found"]
        else unknown_encodings.flatMap (match_face dist tol known_names known_face_encodings) := by
  unfold analyze_encodings
  rw [foldl_append_eq_flatMap]
  cases unknown_encodings with
  | nil => simp
  | cons a l => simp

theorem le_length_flatMap (g : α → List β) :
    ∀ l : List α, (∀ u ∈ l, 1 ≤ (g u).length) → l.length ≤ (l.flatMap g).length
  | [], _ => by simp
  | a :: l, h => by
    rw [List.flatMap_cons, List.length_append, List.length_cons]
    have ha := h a (by simp)
    have hl := le_length_flatMap g l (fun u hu => h u (by simp [hu]))
    omega

theorem length_flatMap_of_all_one (g : α → List β) :
    ∀ l : List α, (∀ u ∈ l, (g u).length = 1) → (l.flatMap g).length = l.length
  | [], _ => by simp
  | a :: l, h => by
    rw [List.flatMap_cons, List.length_append, List.length_cons,
      h a (by simp), length_flatMap_of_all_one g l (fun u hu => h u (by simp [hu]))]
    omega

/-- C1: for every unknown face encoding, the per-face matcher of
`analyze_file` emits exactly the list of known names whose encoding is
within tolerance of the unknown encoding (all of them, not only the
closest), and emits the single sentinel `unknown_person` when no known
encoding is within tolerance.  The name and encoding lists are the
parallel lists built by `scan_known_people`. -/
theorem match_face_spec {Enc D : Type} [LinearOrder D] (dist : Enc → Enc → D) (tol : D)
    (known_names : List String) (known_face_encodings : List Enc) (u : Enc)
    (hlen : known_names.length = known_face_encodings.length) :
    (matched_names dist tol known_names known_face_encodings u ≠ [] →
      match_face dist tol known_names known_face_encodings u
        = matched_names dist tol known_names known_face_encodings u)
    ∧ (matched_names dist tol known_names known_face_encodings u = [] →
      match_face dist tol known_names known_face_encodings u = ["unknown_person"]) := by
  rw [match_face_eq dist tol known_names known_face_encodings u hlen]
  constructor
  · intro h
    rw [if_neg h]
  · intro h
    rw [if_pos h]

/-- Witness for C1 at a concrete input: two known people, the unknown
encoding within tolerance of exactly the first. -/
theorem match_face_spec_witness :
    (["alice", "bob"] : List String).length = ([0, 5] : List Nat).length
    ∧ ((matched_names dNat 1 ["alice", "bob"] [0, 5] 0 ≠ [] →
        match_face dNat 1 ["alice", "bob"] [0, 5] 0
          = matched_names dNat 1 ["alice", "bob"] [0, 5] 0)
      ∧ (matched_names dNat 1 ["alice", "bob"] [0, 5] 0 = [] →
        match_face dNat 1 ["alice", "bob"] [0, 5] 0 = ["unknown_person"]))
    ∧ match_face dNat 1 ["alice", "bob"] [0, 5] 0 = ["alice"] :=
  ⟨rfl, match_face_spec dNat 1 ["alice", "bob"] [0, 5] 0 rfl, by decide⟩

/-- C2 (counterexample): one detected face whose encoding is within
tolerance of two known entries yields two labels, not one, so a frame
with N detected faces does not in general produce exactly N labels. -/
theorem analyze_encodings_two_labels_one_face :
    analyze_encodings dNat 1 ["a", "b"] [0, 0] [0] = ["a", "b"]
    ∧ ([0] : List Nat).length = 1 := by decide

/-- C2 (amended): with parallel name/encoding lists and the sentinel not
itself a known name, a frame with N detected faces (N ≥ 1) produces at
least N labels — one per match per face, so exactly N when every face
matches at most one known entry — each label being a known name or
`unknown_person`; `no_people_found` appears iff zero faces were
detected, and then as the sole label. -/
theorem analyze_encodings_label_invariants {Enc D : Type} [LinearOrder D]
    (dist : Enc → Enc → D) (tol : D) (known_names : List String)
    (known_face_encodings : List Enc) (unknown_encodings : List Enc)
    (hlen : known_names.length = known_face_encodings.length)
    (hs : "no_people_found" ∉ known_names) :
    (unknown_encodings = [] →
      analyze_encodings dist tol known_names known_face_encodings unknown_encodings
        = ["no_people_found"])
    ∧ (unknown_encodings ≠ [] →
        unknown_encodings.length
          ≤ (analyze_encodings dist tol known_names known_face_encodings unknown_encodings).length
        ∧ (∀ l ∈ analyze_encodings dist tol known_names known_face_encodings unknown_encodings,
            l ∈ known_names ∨ l = "unknown_person")
        ∧ "no_people_found"
            ∉ analyze_encodings dist tol known_names known_face_encodings unknown_encodings
        ∧ ((∀ u ∈ unknown_encodings,
              (matched_names dist tol known_names known_face_encodings u).length ≤ 1) →
            (analyze_encodings dist tol known_names known_face_encodings unknown_encodings).length
              = unknown_encodings.length)) := by
  constructor
  · intro h
    rw [analyze_encodings_eq, if_pos (by simp [h])]
  · intro h
    have hne : unknown_encodings.isEmpty = false := by
      cases unknown_encodings with
      | nil => exact absurd rfl h
      | cons a l => rfl
    rw [analyze_encodings_eq, if_neg (by simp [hne])]
    refine ⟨?_, ?_, ?_, ?_⟩
    · exact le_length_flatMap _ unknown_encodings
        (fun u _ => one_le_length_match_face dist tol known_names known_face_encodings u hlen)
    · intro l hl
      obtain ⟨u, _, hu⟩ := List.mem_flatMap.mp hl
      exact mem_match_face dist tol known_names known_face_encodings u hlen l hu
    · intro hcontra
      obtain ⟨u, _, hu⟩ := List.mem_flatMap.mp hcontra
      rcases mem_match_face dist tol known_names known_face_encodings u hlen _ hu with hin | hsent
      · exact hs hin
      · exact absurd hsent (by decide)
    · intro hone
      exact length_flatMap_of_all_one _ unknown_encodings
        (fun u hu => length_match_face_of_le_one dist tol known_names known_face_encodings u hlen
          (hone u hu))

/-- Witness for the amended C2 at a concrete input: one known person,
one detected face matching nobody. -/
theorem analyze_encodings_label_invariants_witness :
    (["alice"] : List String).length = ([0] : List Nat).length
    ∧ "no_people_found" ∉ (["alice"] : List String)
    ∧ (([5] : List Nat) ≠ [] →
        ([5] : List Nat).length ≤ (analyze_encodings dNat 1 ["alice"] [0] [5]).length
        ∧ (∀ l ∈ analyze_encodings dNat 1 ["alice"] [0] [5],
            l ∈ (["alice"] : List String) ∨ l = "unknown_person")
        ∧ "no_people_found" ∉ analyze_encodings dNat 1 ["alice"] [0] [5]
        ∧ ((∀ u ∈ ([5] : List Nat), (matched_names dNat 1 ["alice"] [0] u).length ≤ 1) →
            (analyze_encodings dNat 1 ["alice"] [0] [5]).length = ([5] : List Nat).length)) :=
  ⟨rfl, by decide,
    (analyze_encodings_label_invariants dNat 1 ["alice"] [0] [5] rfl (by decide)).2⟩

/-- C3 (code bug): the reference `alice.jpg` grew from the cached 1000
bytes to 1200 bytes.  The size mismatch does force a re-encoding of the
file, but the loop only appends the fresh `(name, encoding, size)`
triple (line 240-242) and never removes the stale cache entry, so the
rebuilt index and the rewritten cache hold `alice` twice — the stale
encoding 1 first, the fresh encoding 2 second — instead of replacing
the entry. -/
theorem scan_known_people_size_change_appends_duplicate :
    scan_known_people (fun _ => [(2 : Int)]) [("alice", 1200)] (["alice"], [(1 : Int)], [1000])
      = (⟨["alice", "alice"], [1, 2], [1000, 1200], true⟩, true) := by decide

/-- C4 (code bug): the encoder finds two faces in the reference
`alice.jpg`.  The code logs "Only considering the first face" but its
`if len(encodings) > 1` branch (lines 232-236) falls through without
appending anything, so `alice` is dropped from the index entirely
instead of being added with the first encoding. -/
theorem scan_known_people_multi_face_dropped :
    scan_known_people (fun _ => [(7 : Int), (8 : Int)]) [("alice", 100)] ([], [], [])
      = (⟨[], [], [], true⟩, true) := by decide

/-- C5 (counterexample): a reference directory whose single image
contains no detectable face.  The first build finds it absent from the
cache, marks the cache dirty and writes the store; the rebuilt cache is
empty, so the second build — with no filesystem change — misses again
and writes the store a second time, refuting that the second build does
not write the cache. -/
theorem scan_known_people_rebuild_rewrites :
    let first := scan_known_people (fun _ => ([] : List Int)) [("alice", 1000)] ([], [], [])
    let second := scan_known_people (fun _ => ([] : List Int)) [("alice", 1000)]
      (first.1.names, first.1.encs, first.1.sizes)
    first.2 = true ∧ second.2 = true ∧ first.1.names = [] := by decide

/-- C6 (code bug): `alice.jpg` was removed from the reference directory
while the cache still lists `alice` and `bob`.  The live-count/entry-
count mismatch does trigger a full cache rewrite (second component
`true`), but nothing prunes the in-memory lists, so the rebuilt index
and the rewritten cache still contain the entry for `alice`, whose
reference file no longer exists — and the mismatch re-triggers the
rewrite on every later build. -/
theorem scan_known_people_removed_file_retained :
    scan_known_people (fun _ => [(0 : Int)]) [("bob", 500)]
        (["alice", "bob"], [(1 : Int), (2 : Int)], [100, 500])
      = (⟨["alice", "bob"], [1, 2], [100, 500], false⟩, true) := by decide

theorem step_of_cache_hit {Enc : Type} (encoder : String → List Enc) (st : KPState Enc)
    (f : String × Nat) (h : cache_hit st f = true) :
    scan_known_people_step encoder st f = st := by
  unfold cache_hit at h
  unfold scan_known_people_step
  cases hidx : index_of_name st.names f.1 with
  | none => rw [hidx] at h; exact absurd h (by simp)
  | some i =>
    rw [hidx] at h
    have h' : (st.sizes.get? i == some f.2) = true := h
    show (if st.sizes.get? i = some f.2 then st else scan_known_people_encode encoder st f) = st
    rw [if_pos (by simpa using h')]

theorem foldl_step_fixed {Enc : Type} (encoder : String → List Enc) :
    ∀ (files : List (String × Nat)) (st : KPState Enc),
      (∀ f ∈ files, cache_hit st f = true) →
      files.foldl (scan_known_people_step encoder) st = st
  | [], _, _ => rfl
  | f :: files, st, h => by
    rw [List.foldl_cons, step_of_cache_hit encoder st f (h f (by simp))]
    exact foldl_step_fixed encoder files st (fun g hg => h g (by simp [hg]))

/-- C5 (amended): rebuilding with no filesystem change yields the
identical (names, encodings) lists and does not write the cache store,
provided that after the first build every reference file hits the cache
(the first index of its basename carries its current size) and the live
file count equals the entry count.  A reference image with zero (or
several) detected faces, a stale-size entry, or an entry for a removed
file breaks the proviso, and then the second build re-encodes and/or
rewrites the store, as the counterexample shows. -/
theorem scan_known_people_second_build_stable {Enc : Type} (encoder : String → List Enc)
    (files : List (String × Nat)) (st1 : KPState Enc)
    (hhit : ∀ f ∈ files, cache_hit st1 f = true)
    (hlen : files.length = st1.names.length) :
    scan_known_people encoder files (st1.names, st1.encs, st1.sizes)
      = (⟨st1.names, st1.encs, st1.sizes, false⟩, false) := by
  unfold scan_known_people
  have hfix : files.foldl (scan_known_people_step encoder)
      (⟨st1.names, st1.encs, st1.sizes, false⟩ : KPState Enc)
      = (⟨st1.names, st1.encs, st1.sizes, false⟩ : KPState Enc) :=
    foldl_step_fixed encoder files _ (fun f hf => hhit f hf)
  simp only [hfix]
  simp [hlen]

/-- Witness for the amended C5: one reference file, cached with its
current size, entry count matching; the second build returns the same
index and does not write the store. -/
theorem scan_known_people_second_build_stable_witness :
    (∀ f ∈ [("alice", 1000)],
      cache_hit (⟨["alice"], [(5 : Int)], [1000], true⟩ : KPState Int) f = true)
    ∧ ([("alice", 1000)] : List (String × Nat)).length = (["alice"] : List String).length
    ∧ scan_known_people (fun _ => [(5 : Int)]) [("alice", 1000)] (["alice"], [5], [1000])
        = (⟨["alice"], [5], [1000], false⟩, false) :=
  ⟨by decide, rfl,
    scan_known_people_second_build_stable (fun _ => [(5 : Int)]) [("alice", 1000)]
      ⟨["alice"], [5], [1000], true⟩ (by decide) rfl⟩

/-- C7 (counterexample): the reconciler takes no metadata state as
input — `add_metadata` (lines 255-269) never reads the file's current
tag values — so a second run on the same file with the same
RecognitionResult issues exactly the same external command as the
first, and that command still contains append writes for the
already-written name `alice` in all three fields.  Hence the second run
does issue additional external append writes. -/
theorem add_metadata_second_run_appends :
    "-Keywords+=alice" ∈ add_metadata "group.jpg" ["alice"]
    ∧ "-HierarchicalSubject+=Personen|alice" ∈ add_metadata "group.jpg" ["alice"]
    ∧ "-Subject+=alice" ∈ add_metadata "group.jpg" ["alice"] := by decide

/-- C7 (amended): the reconciler is stateless — it reads no current
metadata and diffs nothing.  Every run, the first and every later one
alike, invokes the external tool with append arguments for every
recognized name in the flat keyword field, the hierarchical field
(nested under the top keyword) and the subject field, plus the top
keyword itself; a repeat run issues the identical appends again. -/
theorem add_metadata_appends_unconditionally (fp : String) (rp : List String) (name : String)
    (h : name ∈ rp) :
    ("-Keywords+=" ++ name) ∈ add_metadata fp rp
    ∧ ("-HierarchicalSubject+=" ++ (TOP_KEYWORD ++ "|" ++ name)) ∈ add_metadata fp rp
    ∧ ("-Subject+=" ++ name) ∈ add_metadata fp rp
    ∧ ("-Keywords+=" ++ TOP_KEYWORD) ∈ add_metadata fp rp := by
  have hkw : ("-Keywords+=" ++ name)
      ∈ (rp ++ [TOP_KEYWORD]).map (fun person => "-Keywords+=" ++ person) :=
    List.mem_map.mpr ⟨name, List.mem_append_left _ h, rfl⟩
  have hkwT : ("-Keywords+=" ++ TOP_KEYWORD)
      ∈ (rp ++ [TOP_KEYWORD]).map (fun person => "-Keywords+=" ++ person) :=
    List.mem_map.mpr ⟨TOP_KEYWORD, List.mem_append_right _ (by simp), rfl⟩
  have hhs : ("-HierarchicalSubject+=" ++ (TOP_KEYWORD ++ "|" ++ name))
      ∈ ((rp.map (fun person => TOP_KEYWORD ++ "|" ++ person)) ++ [TOP_KEYWORD]).map
          (fun person_sub => "-HierarchicalSubject+=" ++ person_sub) :=
    List.mem_map.mpr ⟨TOP_KEYWORD ++ "|" ++ name,
      List.mem_append_left _ (List.mem_map.mpr ⟨name, h, rfl⟩), rfl⟩
  have hsub : ("-Subject+=" ++ name)
      ∈ (rp ++ [TOP_KEYWORD]).map (fun person => "-Subject+=" ++ person) :=
    List.mem_map.mpr ⟨name, List.mem_append_left _ h, rfl⟩
  simp only [add_metadata, exiftool_write]
  refine ⟨?_, ?_, ?_, ?_⟩
  · exact List.mem_append_left _ (List.mem_append_left _
      (List.mem_append_left _ (List.mem_append_right _ hkw)))
  · exact List.mem_append_left _ (List.mem_append_left _ (List.mem_append_right _ hhs))
  · exact List.mem_append_left _ (List.mem_append_right _ hsub)
  · exact List.mem_append_left _ (List.mem_append_left _
      (List.mem_append_left _ (List.mem_append_right _ hkwT)))

/-- Witness for the amended C7 at a concrete input. -/
theorem add_metadata_appends_unconditionally_witness :
    "bob" ∈ (["bob"] : List String)
    ∧ (("-Keywords+=" ++ "bob") ∈ add_metadata "party.png" ["bob"]
      ∧ ("-HierarchicalSubject+=" ++ (TOP_KEYWORD ++ "|" ++ "bob")) ∈ add_metadata "party.png" ["bob"]
      ∧ ("-Subject+=" ++ "bob") ∈ add_metadata "party.png" ["bob"]
      ∧ ("-Keywords+=" ++ TOP_KEYWORD) ∈ add_metadata "party.png" ["bob"]) :=
  ⟨by decide, add_metadata_appends_unconditionally "party.png" ["bob"] "bob" (by decide)⟩

/-- C8 (code bug): a batch of two files where analyzing the first
raises an unhandled exception.  `main` collects worker outcomes with
`future.result()` inside a loop with no try/except (lines 299-300), so
the exception re-raises in the orchestrator: the whole collection
aborts with the error, the second file's successful result is never
processed, and no per-file "warning" result is produced — `main`'s
check for a `"warning:"` label (lines 309, 326) is dead, as nothing
converts a failure into such a label. -/
theorem collect_results_error_aborts_batch :
    collect_results [Except.error "ValueError", Except.ok ["alice"]]
      = Except.error "ValueError" := rfl

/-- C9 (code bug): the directory `d` contains the supported image
`d/a/b/x.jpg` three levels down.  `scan_files` globs `d/*.ext` and
`d/**/*.ext` without `recursive=True` (lines 100-103), so `**` matches
exactly one path component and the scan of `["d"]` returns no file at
all, although the docstring promises recursive collection from all
subdirectories. -/
theorem scan_files_misses_deep_file :
    (scan_files fsDeep 10 [["d"]]).1 = []
    ∧ (⟨["d", "a", "b", "x.jpg"], false⟩ : FSEntry) ∈ fsDeep
    ∧ ends_with_ext "x.jpg" "jpg" = true := by decide

/-- C10 (counterexample): `scan_files` extends the very list object it
iterates, and `main` passes the same list to both of its `scan_files`
calls (lines 292 and 299).  With the directory `d` containing `d/x.jpg`
in the input, the first call returns the file once and leaves the
discovered path appended to the caller's list; the second call then
returns the file twice — the two runs do not yield the same sequence. -/
theorem scan_files_double_scan_differs :
    (scan_files fsSmall 10 [["d"]]).1 = [["d", "x.jpg"]]
    ∧ (scan_files fsSmall 10 (scan_files fsSmall 10 [["d"]]).2).1
        = [["d", "x.jpg"], ["d", "x.jpg"]] := by decide

theorem scan_files_go_no_dirs (fs : List FSEntry) :
    ∀ (input : List (List String)) (fuel : Nat),
      (∀ p ∈ input, fs_is_dir fs p = false) → input.length ≤ fuel →
      scan_files_go fs fuel input = (input.filter (fs_is_file fs), input)
  | [], 0, _, _ => rfl
  | [], Nat.succ _, _, _ => rfl
  | p :: input, Nat.succ fuel, hnd, hfuel => by
    have hp : fs_is_dir fs p = false := hnd p (by simp)
    have ih := scan_files_go_no_dirs fs input fuel
      (fun q hq => hnd q (by simp [hq])) (Nat.le_of_succ_le_succ hfuel)
    unfold scan_files_go
    rw [hp]
    by_cases hf : fs_is_file fs p = true
    · simp [hf, ih, List.filter_cons]
    · simp only [Bool.not_eq_true] at hf
      simp [hf, ih, List.filter_cons]

/-- C10 (amended): the scanner is idempotent on inputs that contain no
directory entry: such a scan appends nothing to the caller's list, so
running it again over that list — as `main` does — yields the same
output sequence.  With a directory in the input the first call mutates
the shared list and the second call repeats each discovered file, as
the counterexample shows. -/
theorem scan_files_idempotent_without_dirs (fs : List FSEntry) (input : List (List String))
    (fuel1 fuel2 : Nat) (hnd : ∀ p ∈ input, fs_is_dir fs p = false)
    (h1 : input.length ≤ fuel1) (h2 : input.length ≤ fuel2) :
    scan_files fs fuel2 (scan_files fs fuel1 input).2 = scan_files fs fuel1 input := by
  unfold scan_files
  rw [scan_files_go_no_dirs fs input fuel1 hnd h1]
  exact scan_files_go_no_dirs fs input fuel2 hnd h2

/-- Witness for the amended C10: a single plain image file as input. -/
theorem scan_files_idempotent_without_dirs_witness :
    (∀ p ∈ [["a.jpg"]], fs_is_dir [⟨["a.jpg"], false⟩] p = false)
    ∧ ([["a.jpg"]] : List (List String)).length ≤ 5
    ∧ scan_files [⟨["a.jpg"], false⟩] 5 (scan_files [⟨["a.jpg"], false⟩] 5 [["a.jpg"]]).2
        = scan_files [⟨["a.jpg"], false⟩] 5 [["a.jpg"]] :=
  ⟨by decide, by decide,
    scan_files_idempotent_without_dirs [⟨["a.jpg"], false⟩] [["a.jpg"]] 5 5
      (by decide) (by decide) (by decide)⟩
